import Mathlib

/-!
Verification development for the `optparse` command-line option parser
(header `optparse.h`).  The repository ships only the interface header;
the matching-and-dispatch engine itself is therefore modelled from the
specification's component descriptions (Token Classifier, Type
Converter, List Splitter, Dispatch Engine).  Tokens are modelled as
lists of characters, argument vectors as lists of tokens.
-/

set_option autoImplicit false

/-- A raw command-line token, modelled as its list of bytes/characters. -/
abbrev Str := List Char

/-- The action kinds of `enum optparse_action` in `optparse.h`. -/
inductive OptparseAction
  | set_true | set_false | toggle | increment | decrement
  | store | append | call | call_void | call_parse
deriving DecidableEq, Repr

/-- The conversion targets of `enum optparse_type` in `optparse.h`
(`OPTPARSE_TYPE_STR` .. `OPTPARSE_TYPE_LDBL`). -/
inductive OptparseType
  | str | char | schar | uchar | shrt | ushrt | int | uint
  | long | ulong | llong | ullong | flt | dbl | ldbl
deriving DecidableEq, Repr

/-- The function-call modes of `enum optparse_function_call` in
`optparse.h`: `OPTPARSE_CALL`, `OPTPARSE_CALL_RAW`, `OPTPARSE_CALL_VOID`,
`OPTPARSE_CALL_PARSE`. -/
inductive optparse_function_call
  | call | call_raw | call_void | call_parse
deriving DecidableEq, Repr

/-- `OPTPARSE_HALT_ON_ERROR` is defined to `0` in `optparse.h`. -/
def OPTPARSE_HALT_ON_ERROR : Bool := false

/-- Classification of one raw token.  Modelled from the spec: output of
the Token Classifier, one of LongOption(name, inline value?),
ShortCluster(chars), DoubleDashSentinel, Positional. -/
inductive TokClass
  | longOption (name : Str) (inl : Option Str)
  | shortCluster (chars : Str)
  | doubleDash
  | positional
deriving DecidableEq, Repr

/-- Splits a character list at the first `=`: returns the text before it
and the text after it, or `none` when no `=` occurs. -/
def splitAtFirstEq : Str → Option (Str × Str)
  | [] => none
  | c :: rest =>
    if c = '=' then some ([], rest)
    else
      match splitAtFirstEq rest with
      | some (a, b) => some (c :: a, b)
      | none => none

/-- Modelled from the spec: the Token Classifier.  `--` exactly is the
sentinel; a token starting with `--` of length > 2 is a long option whose
name is the text between `--` and the first `=` (if any) and whose inline
value is the text after that `=`; a token starting with a single `-` of
length > 1 (and not `--`) is a short cluster, one option character per
remaining byte; anything else (bare `-`, tokens not starting with `-`) is
positional. -/
def classify (tok : Str) : TokClass :=
  if tok = ['-', '-'] then TokClass.doubleDash
  else
    match tok with
    | '-' :: '-' :: rest =>
      match splitAtFirstEq rest with
      | some (name, val) => TokClass.longOption name (some val)
      | none => TokClass.longOption rest none
    | '-' :: c :: rest => TokClass.shortCluster (c :: rest)
    | _ => TokClass.positional

/-- Converted option-argument values: raw text, or an exact numeric value
(standing for the `long double` the engine range-checks with). -/
inductive Value
  | str (s : Str)
  | num (q : Rat)
deriving DecidableEq, Repr

/-- The parse-time error kinds of the spec's error model:
UnknownOptionError, MissingArgumentError, ConversionError, RangeError,
ListLengthError. -/
inductive ParseErr
  | unknownOption (tok : Str)
  | missingArgument
  | conversionError
  | rangeError
  | listLengthError
deriving DecidableEq, Repr

/-- Consumes a maximal run of decimal digits, accumulating their value. -/
def digitsAux (acc : Nat) : Str → Nat × Str
  | [] => (acc, [])
  | c :: rest =>
    if c.isDigit then digitsAux (acc * 10 + (c.toNat - '0'.toNat)) rest
    else (acc, c :: rest)

/-- Parses a nonempty run of decimal digits from the front of the string,
returning its value and the unconsumed remainder; `none` when the string
does not start with a digit. -/
def parseNat : Str → Option (Nat × Str)
  | [] => none
  | c :: rest =>
    if c.isDigit then some (digitsAux 0 (c :: rest)) else none

/-- Modelled from the spec: standard textual-to-integer parsing in the
style of `strtol` — an optional sign followed by decimal digits; returns
the parsed value and the first unconsumed character onward. -/
def strtol_model : Str → Option (Int × Str)
  | '-' :: rest => (parseNat rest).map (fun p => (-(p.1 : Int), p.2))
  | '+' :: rest => (parseNat rest).map (fun p => ((p.1 : Int), p.2))
  | s => (parseNat s).map (fun p => ((p.1 : Int), p.2))

/-- Parses `digits [ '.' [digits] ]` into an exact rational. -/
def parseUnsignedDec (s : Str) : Option (Rat × Str) :=
  match parseNat s with
  | none => none
  | some (ip, rest) =>
    match rest with
    | '.' :: r2 =>
      match parseNat r2 with
      | some (fp, r3) =>
        some ((ip : Rat) + (fp : Rat) / ((10 : Rat) ^ (r2.length - r3.length)), r3)
      | none => some ((ip : Rat), r2)
    | _ => some ((ip : Rat), rest)

/-- Modelled from the spec: standard textual-to-floating parsing in the
style of `strtod`, kept exact by producing a rational. -/
def strtod_model : Str → Option (Rat × Str)
  | '-' :: rest => (parseUnsignedDec rest).map (fun p => (-p.1, p.2))
  | '+' :: rest => (parseUnsignedDec rest).map (fun p => (p.1, p.2))
  | s => (parseUnsignedDec s).map (fun p => (p.1, p.2))

/-- Modelled from the spec: the numeric parse used by the Type Converter
for each non-text conversion type — integer classes use the `strtol`
style parse, floating classes the `strtod` style parse.  Returns the
parsed value and the unconsumed remainder. -/
def numericParse (ty : OptparseType) (s : Str) : Option (Rat × Str) :=
  match ty with
  | OptparseType.str => none
  | OptparseType.flt | OptparseType.dbl | OptparseType.ldbl => strtod_model s
  | _ => (strtol_model s).map (fun p => ((p.1 : Rat), p.2))

/-- Range validation against the configured `min`/`max` bounds (absent
bound = unconstrained), by exact comparison as the extended-precision
comparison of the engine. -/
def rangeOk (minB maxB : Option Rat) (q : Rat) : Bool :=
  (match minB with | none => true | some m => decide (m ≤ q)) &&
  (match maxB with | none => true | some M => decide (q ≤ M))

/-- Modelled from the spec: the Type Converter.  Text type is identity
with `min`/`max` read as string-length bounds; numeric types fail with
ConversionError when the text is empty or not fully consumed by the
numeric parse, and otherwise range-check the value against `min`/`max`,
failing with RangeError outside the bounds. -/
def convert (ty : OptparseType) (minB maxB : Option Rat) (s : Str) : Except ParseErr Value :=
  if ty = OptparseType.str then
    if rangeOk minB maxB (s.length : Rat) then Except.ok (Value.str s)
    else Except.error ParseErr.rangeError
  else
    match numericParse ty s with
    | some (q, []) =>
      if rangeOk minB maxB q then Except.ok (Value.num q)
      else Except.error ParseErr.rangeError
    | _ => Except.error ParseErr.conversionError

/-- One option definition, after `struct optparse_opt` in `optparse.h`:
short/long names, the action, required option-argument count `argc`
(-1 optional / 0 / 1), conversion type, `min`/`max` bounds (modelled as
optional exact bounds: the header's `long double` fields with an absent
bound standing for an unconstrained one), list delimiters and list length
bounds. -/
structure optparse_opt where
  short_name : Option Char := none
  long_name : Option Str := none
  action : OptparseAction := OptparseAction.set_true
  argc : Int := 0
  type : OptparseType := OptparseType.str
  min : Option Rat := none
  max : Option Rat := none
  list_delim : Option Str := none
  list_len_min : Nat := 0
  list_len_max : Option Nat := none
deriving DecidableEq, Repr

/-- The registered option table: the entries of the array passed to
`optparse_init`, sentinel entry excluded. -/
abbrev OptTable := List optparse_opt

/-- Looks up an option by its short name, returning its index in the
table and the definition; first match wins. -/
def lookupShortAux (i : Nat) : OptTable → Char → Option (Nat × optparse_opt)
  | [], _ => none
  | o :: rest, c =>
    if o.short_name = some c then some (i, o) else lookupShortAux (i + 1) rest c

/-- Looks up an option by short name (index and definition). -/
def lookupShort (table : OptTable) (c : Char) : Option (Nat × optparse_opt) :=
  lookupShortAux 0 table c

/-- Looks up an option by its long name, returning its index in the
table and the definition; first match wins. -/
def lookupLongAux (i : Nat) : OptTable → Str → Option (Nat × optparse_opt)
  | [], _ => none
  | o :: rest, n =>
    if o.long_name = some n then some (i, o) else lookupLongAux (i + 1) rest n

/-- Looks up an option by long name (index and definition). -/
def lookupLong (table : OptTable) (n : Str) : Option (Nat × optparse_opt) :=
  lookupLongAux 0 table n

/-- Modelled from the spec: the List Splitter.  Splits on any character
present in the delimiter set, with no escaping; empty items between
consecutive delimiters (and at the ends) are preserved as empty
strings. -/
def splitOnDelims (delims : Str) : Str → List Str
  | [] => [[]]
  | c :: rest =>
    if c ∈ delims then [] :: splitOnDelims delims rest
    else
      match splitOnDelims delims rest with
      | chunk :: more => (c :: chunk) :: more
      | [] => [[c]]

/-- Converts every list item with the Type Converter, propagating the
first failure. -/
def convertItems (ty : OptparseType) (minB maxB : Option Rat) : List Str → Except ParseErr (List Value)
  | [] => Except.ok []
  | s :: rest =>
    match convert ty minB maxB s with
    | Except.error e => Except.error e
    | Except.ok v =>
      match convertItems ty minB maxB rest with
      | Except.error e => Except.error e
      | Except.ok vs => Except.ok (v :: vs)

/-- Modelled from the spec: option-argument processing (Dispatch
Engine steps 4–5).  In list mode the acquired text is split on the
delimiters, the item count is checked against the list length bounds
(ListLengthError outside them), and each item undergoes the same type
conversion; otherwise the whole text is converted once. -/
def processArg (o : optparse_opt) (text : Str) : Except ParseErr (List Value) :=
  match o.list_delim with
  | some delims =>
    let items := splitOnDelims delims text
    if items.length < o.list_len_min then Except.error ParseErr.listLengthError
    else
      match o.list_len_max with
      | some M =>
        if M < items.length then Except.error ParseErr.listLengthError
        else convertItems o.type o.min o.max items
      | none => convertItems o.type o.min o.max items
  | none =>
    match convert o.type o.min o.max text with
    | Except.ok v => Except.ok [v]
    | Except.error e => Except.error e

/-- One executed action: the matched option's table index, its action
kind, and the converted value(s) it received (empty for no argument,
one value for a plain argument, the item list in list mode). -/
inductive Event
  | acted (i : Nat) (a : OptparseAction) (vs : List Value)
deriving DecidableEq, Repr

/-- Modelled from the spec: dispatch of one matched option occurrence.
Either the acquired argument (if any) passes processing and the
configured action executes exactly once, or processing fails and the
error is reported instead — the action of a failed occurrence never
executes. -/
def dispatchMatch (i : Nat) (o : optparse_opt) (acquired : Option Str) : Except ParseErr Event :=
  match acquired with
  | none => Except.ok (Event.acted i o.action [])
  | some text =>
    match processArg o text with
    | Except.ok vs => Except.ok (Event.acted i o.action vs)
    | Except.error e => Except.error e

/-- Modelled from the spec: handling a long option token.  Resolution
against the table by exact long-name match; arity 0 executes with no
value; otherwise acquisition priority is inline `=` value first, else the
next raw token, else (only for optional arity) no value, else
MissingArgumentError.  Returns the outcomes and whether the next raw
token was consumed. -/
def processLong (table : OptTable) (name : Str) (inl : Option Str) (next : Option Str) :
    List (Except ParseErr Event) × Bool :=
  match lookupLong table name with
  | none => ([Except.error (ParseErr.unknownOption name)], false)
  | some (i, o) =>
    if o.argc = 0 then ([dispatchMatch i o none], false)
    else
      match inl with
      | some v => ([dispatchMatch i o (some v)], false)
      | none =>
        match next with
        | some v => ([dispatchMatch i o (some v)], true)
        | none =>
          if o.argc = -1 then ([dispatchMatch i o none], false)
          else ([Except.error ParseErr.missingArgument], false)

/-- Modelled from the spec: handling a short-option cluster.  Each
character is resolved against the table in sequence; a zero-arity match
continues with the next character of the same token; a one-arity or
optional-arity match consumes the rest of the current token as its
option-argument or, if nothing remains, the next raw token (optional
arity proceeds with no value when no token remains; required arity
reports MissingArgumentError).  Returns the outcomes and whether the
next raw token was consumed. -/
def processCluster (table : OptTable) : Str → Option Str → List (Except ParseErr Event) × Bool
  | [], _ => ([], false)
  | c :: rest, next =>
    match lookupShort table c with
    | none =>
      let p := processCluster table rest next
      (Except.error (ParseErr.unknownOption [c]) :: p.1, p.2)
    | some (i, o) =>
      if o.argc = 0 then
        let p := processCluster table rest next
        (dispatchMatch i o none :: p.1, p.2)
      else
        match rest with
        | _ :: _ => ([dispatchMatch i o (some rest)], false)
        | [] =>
          match next with
          | some v => ([dispatchMatch i o (some v)], true)
          | none =>
            if o.argc = -1 then ([dispatchMatch i o none], false)
            else ([Except.error ParseErr.missingArgument], false)

instance {ε α : Type} [DecidableEq ε] [DecidableEq α] : DecidableEq (Except ε α) := fun x y =>
  match x, y with
  | Except.ok a, Except.ok b =>
    if h : a = b then isTrue (by rw [h]) else isFalse (by intro hh; cases hh; exact h rfl)
  | Except.error a, Except.error b =>
    if h : a = b then isTrue (by rw [h]) else isFalse (by intro hh; cases hh; exact h rfl)
  | Except.ok _, Except.error _ => isFalse (by intro hh; cases hh)
  | Except.error _, Except.ok _ => isFalse (by intro hh; cases hh)

/-- True when some outcome of the list is an error. -/
def hasError (outs : List (Except ParseErr Event)) : Bool :=
  outs.any (fun o => match o with | Except.error _ => true | Except.ok _ => false)

/-- The errors among a list of outcomes, in order. -/
def errorsOf (outs : List (Except ParseErr Event)) : List ParseErr :=
  outs.filterMap (fun o => match o with | Except.error e => some e | Except.ok _ => none)

/-- How the engine disposed of one raw token: kept as a positional
operand, recognized as an option token, consumed as a separate
option-argument token, or the `--` sentinel. -/
inductive Mark
  | positional | optionTok | optionArg | sentinel
deriving DecidableEq, Repr

/-- The outcome of one engine run over the tokens after `argv[0]`:
the positional operands in encounter order, the dispatch outcomes, and a
trace recording how each processed token was disposed of. -/
structure LoopOut where
  ops : List Str
  outcomes : List (Except ParseErr Event)
  trace : List (Str × Mark)
deriving DecidableEq, Repr

/-- The engine's disposition of one raw token: the `after --` flag for
the rest of the run, whether the next raw token was consumed as an
option-argument, whether the loop must stop (halt-on-error), whether the
token survives as a positional operand, the token's trace mark, and the
dispatch outcomes it produced. -/
structure StepOut where
  ddNext : Bool
  used : Bool
  stop : Bool
  isPos : Bool
  mark : Mark
  outs : List (Except ParseErr Event)
deriving DecidableEq, Repr

/-- Modelled from the spec: how the Dispatch Engine disposes of one raw
token, given whether `--` was already seen and the next raw token.
After `--`, every token is positional unconditionally; otherwise the
Token Classifier decides: positional tokens are kept, `--` flips the
sentinel flag, long options and short clusters are resolved and
dispatched (possibly consuming the next raw token), and with
halt-on-error enabled an erroneous option token stops the loop. -/
def stepOne (table : OptTable) (halt dd : Bool) (t : Str) (next : Option Str) : StepOut :=
  if dd then ⟨true, false, false, true, Mark.positional, []⟩
  else
    match classify t with
    | TokClass.positional => ⟨false, false, false, true, Mark.positional, []⟩
    | TokClass.doubleDash => ⟨true, false, false, false, Mark.sentinel, []⟩
    | TokClass.longOption name inl =>
      let p := processLong table name inl next
      ⟨false, p.2, halt && hasError p.1, false, Mark.optionTok, p.1⟩
    | TokClass.shortCluster chars =>
      let p := processCluster table chars next
      ⟨false, p.2, halt && hasError p.1, false, Mark.optionTok, p.1⟩

/-- Modelled from the spec: the Dispatch Engine's token loop over the
tokens after `argv[0]`, threading the `--` flag and a `skip` flag (true
when the head token was already consumed as the previous option's
option-argument), buffering positional operands in encounter order,
collecting dispatch outcomes, and tracing every processed token. -/
def parseLoop (table : OptTable) (halt : Bool) : Bool → Bool → List Str → LoopOut
  | _, _, [] => ⟨[], [], []⟩
  | dd, true, t :: rest =>
    let r := parseLoop table halt dd false rest
    ⟨r.ops, r.outcomes, (t, Mark.optionArg) :: r.trace⟩
  | dd, false, t :: rest =>
    let s := stepOne table halt dd t rest.head?
    if s.stop then ⟨[], s.outs, [(t, s.mark)]⟩
    else
      let r := parseLoop table halt s.ddNext s.used rest
      ⟨(if s.isPos then [t] else []) ++ r.ops,
        s.outs ++ r.outcomes,
        (t, s.mark) :: r.trace⟩

/-- The observable result of `optparse_parse`: the rewritten argument
vector (program name followed by the positional operands), the adjusted
`argc`, the return status (0 on success, 1 on error, as documented in
`optparse.h`), plus the dispatch outcomes and token trace. -/
structure ParseResult where
  argv : List Str
  argc : Nat
  ret : Nat
  outcomes : List (Except ParseErr Event)
  trace : List (Str × Mark)
deriving DecidableEq, Repr

/-- Modelled from the spec: `optparse_parse`.  Parses the argument
vector against the registered table, rewrites it in place so that
`argv[0]` (the program name, never touched) is followed by the
positional operands in original relative order, reports the adjusted
count, and returns 0 on success and 1 when any error occurred. -/
def optparse_parse (table : OptTable) (halt : Bool) (argv : List Str) : ParseResult :=
  match argv with
  | [] => ⟨[], 0, 0, [], []⟩
  | prog :: args =>
    let r := parseLoop table halt false false args
    ⟨prog :: r.ops, r.ops.length + 1, if hasError r.outcomes then 1 else 0,
      r.outcomes, r.trace⟩

/-- Modelled from the spec/header: `optparse_init` registers the option
table as the process-wide parser state, overwriting any previous
registration; it must precede `optparse_parse`. -/
def optparse_init (options : OptTable) (_prev : Option OptTable) : Option OptTable :=
  some options

/-- Parsing through the process-wide state: defined only after a table
has been registered. -/
def parseWithState (st : Option OptTable) (halt : Bool) (argv : List Str) :
    Option ParseResult :=
  st.map (fun table => optparse_parse table halt argv)

/-- The value of `destination_length` after a run, for the option at
table index `i`: the number of items its APPEND action executions
appended (each appended item advances the counter by one). -/
def destLenAfter (evs : List Event) (i : Nat) : Nat :=
  evs.foldl
    (fun acc e =>
      match e with
      | Event.acted j a vs =>
        if j = i ∧ a = OptparseAction.append then acc + vs.length else acc)
    0

/-- The events among a list of outcomes, in order. -/
def eventsOf (outs : List (Except ParseErr Event)) : List Event :=
  outs.filterMap (fun o => match o with | Except.ok e => some e | Except.error _ => none)

/-- Modelled from the header's comments on `enum optparse_function_call`:
what a callback destination receives as its argument — the converted
option-argument for `OPTPARSE_CALL` (`func(TYPE arg)`), the original
unconverted text for `OPTPARSE_CALL_RAW` (`func(char *arg)`), and nothing
for the void and parse modes. -/
def callbackArgument (mode : optparse_function_call) (ty : OptparseType)
    (minB maxB : Option Rat) (raw : Str) : Option (Except ParseErr Value) :=
  match mode with
  | optparse_function_call.call => some (convert ty minB maxB raw)
  | optparse_function_call.call_raw => some (Except.ok (Value.str raw))
  | optparse_function_call.call_void => none
  | optparse_function_call.call_parse => none

def uniqueNames (table : OptTable) : Prop :=
  (table.filterMap (fun o => o.short_name)).Nodup ∧
  (table.filterMap (fun o => o.long_name)).Nodup

instance (table : OptTable) : Decidable (uniqueNames table) :=
  inferInstanceAs (Decidable (_ ∧ _))

def ex_a : optparse_opt := { short_name := some 'a' }
def ex_b : optparse_opt := { short_name := some 'b' }
def ex_c : optparse_opt := { short_name := some 'c', argc := 1 }
def ex_table : OptTable := [ex_a, ex_b, ex_c]
def ex_int_opt : optparse_opt :=
  { short_name := some 'n', argc := 1, type := OptparseType.int,
    min := some 0, max := some 100 }
def ex_list_opt : optparse_opt :=
  { short_name := some 'l', long_name := some ['l', 'i', 's', 't'],
    action := OptparseAction.append, argc := 1, list_delim := some [','],
    list_len_min := 1, list_len_max := some 3 }

theorem stepOne_stop_of_no_halt (table : OptTable) (dd : Bool) (t : Str) (next : Option Str) :
    (stepOne table false dd t next).stop = false := by
  simp only [stepOne]
  split
  · rfl
  · split <;> rfl

theorem stepOne_isPos_iff_mark (table : OptTable) (halt dd : Bool) (t : Str) (next : Option Str) :
    (stepOne table halt dd t next).isPos = true ↔
      (stepOne table halt dd t next).mark = Mark.positional := by
  simp only [stepOne]
  split
  · simp
  · split <;> simp

theorem parseLoop_afterDD (table : OptTable) (halt : Bool) (toks : List Str) :
    parseLoop table halt true false toks =
      ⟨toks, [], toks.map (fun t => (t, Mark.positional))⟩ := by
  induction toks with
  | nil => rfl
  | cons t rest ih =>
    rw [parseLoop]
    simp [stepOne, ih]

theorem parseLoop_inv (table : OptTable) (toks : List Str) : ∀ dd skip : Bool,
    (parseLoop table false dd skip toks).trace.map Prod.fst = toks ∧
      (parseLoop table false dd skip toks).ops =
        ((parseLoop table false dd skip toks).trace.filter
          (fun p => decide (p.2 = Mark.positional))).map Prod.fst := by
  induction toks with
  | nil =>
    intro dd skip
    cases skip <;> exact ⟨rfl, rfl⟩
  | cons t rest ih =>
    intro dd skip
    cases skip with
    | true =>
      rw [parseLoop]
      simp [(ih dd false).1, (ih dd false).2]
    | false =>
      rw [parseLoop]
      have hst := stepOne_stop_of_no_halt table dd t rest.head?
      simp only [hst, Bool.false_eq_true, if_false]
      by_cases hp : (stepOne table false dd t rest.head?).isPos = true
      · have hm := (stepOne_isPos_iff_mark table false dd t rest.head?).1 hp
        simp [hp, hm, (ih _ _).1, (ih _ _).2]
      · have hm : ¬ (stepOne table false dd t rest.head?).mark = Mark.positional :=
          fun hmm => hp ((stepOne_isPos_iff_mark table false dd t rest.head?).2 hmm)
        simp [hp, hm, (ih _ _).1, (ih _ _).2]

theorem parseLoop_all_positional (table : OptTable) (halt : Bool) (toks : List Str)
    (h : ∀ t ∈ toks, classify t = TokClass.positional) :
    parseLoop table halt false false toks =
      ⟨toks, [], toks.map (fun t => (t, Mark.positional))⟩ := by
  induction toks with
  | nil => rfl
  | cons t rest ih =>
    have ht := h t (by simp)
    rw [parseLoop]
    simp only [stepOne, ht]
    simp [ih fun t' ht' => h t' (List.mem_cons_of_mem _ ht')]

theorem hasError_false_iff (outs : List (Except ParseErr Event)) :
    hasError outs = false ↔ errorsOf outs = [] := by
  induction outs with
  | nil => simp [hasError, errorsOf]
  | cons o rest ih =>
    cases o with
    | ok e => simpa [hasError, errorsOf] using ih
    | error e => simp [hasError, errorsOf]

theorem splitOnDelims_ne_nil (delims : Str) (s : Str) : splitOnDelims delims s ≠ [] := by
  cases s with
  | nil => simp [splitOnDelims]
  | cons c rest =>
    simp only [splitOnDelims]
    split
    · simp
    · split <;> simp

theorem splitOnDelims_append (delims : Str) (d : Char) (hd : d ∈ delims) (a b : Str) :
    splitOnDelims delims (a ++ d :: b) =
      splitOnDelims delims a ++ splitOnDelims delims b := by
  induction a with
  | nil => simp [splitOnDelims, hd]
  | cons c arest ih =>
    by_cases hc : c ∈ delims
    · simp [splitOnDelims, hc, ih]
    · have hne := splitOnDelims_ne_nil delims arest
      simp only [List.cons_append, splitOnDelims, if_neg hc, List.append_eq]
      rw [ih]
      cases hsa : splitOnDelims delims arest with
      | nil => exact absurd hsa hne
      | cons x xs => simp

theorem splitAtFirstEq_not_mem (name : Str) (h : '=' ∉ name) :
    splitAtFirstEq name = none := by
  induction name with
  | nil => rfl
  | cons c rest ih =>
    have hc : ¬ c = '=' := by
      rintro rfl
      exact h (List.mem_cons_self _ _)
    have hrest : '=' ∉ rest := fun hm => h (List.mem_cons_of_mem _ hm)
    simp [splitAtFirstEq, hc, ih hrest]

theorem splitAtFirstEq_append (name val : Str) (h : '=' ∉ name) :
    splitAtFirstEq (name ++ '=' :: val) = some (name, val) := by
  induction name with
  | nil => simp [splitAtFirstEq]
  | cons c rest ih =>
    have hc : ¬ c = '=' := by
      rintro rfl
      exact h (List.mem_cons_self _ _)
    have hrest : '=' ∉ rest := fun hm => h (List.mem_cons_of_mem _ hm)
    simp [splitAtFirstEq, hc, ih hrest]

theorem classify_long_inline (name val : Str) (h : '=' ∉ name) :
    classify ('-' :: '-' :: (name ++ '=' :: val)) =
      TokClass.longOption name (some val) := by
  have hne : ('-' :: '-' :: (name ++ '=' :: val) : Str) ≠ ['-', '-'] := by simp
  unfold classify
  rw [if_neg hne]
  simp [splitAtFirstEq_append name val h]

theorem classify_long_plain (name : Str) (h0 : name ≠ []) (h : '=' ∉ name) :
    classify ('-' :: '-' :: name) = TokClass.longOption name none := by
  have hne : ('-' :: '-' :: name : Str) ≠ ['-', '-'] := by simp [h0]
  unfold classify
  rw [if_neg hne]
  simp [splitAtFirstEq_not_mem name h]

theorem classify_cluster (c : Char) (rest : Str) (hc : c ≠ '-') :
    classify ('-' :: c :: rest) = TokClass.shortCluster (c :: rest) := by
  have hne : ('-' :: c :: rest : Str) ≠ ['-', '-'] := by
    intro hh
    injection hh with h1 h2
    injection h2 with h3 h4
    exact hc h3
  unfold classify
  rw [if_neg hne]
  split
  · rename_i heq
    injection heq with e1 e2
    injection e2 with e3 e4
    exact absurd e3 hc
  · rename_i heq
    injection heq with e1 e2
    injection e2 with e3 e4
    subst e3 e4
    rfl
  · rename_i hmatch
    exact absurd rfl (hmatch c rest)

theorem classify_nondash (c : Char) (rest : Str) (hc : c ≠ '-') :
    classify (c :: rest) = TokClass.positional := by
  have hne : (c :: rest : Str) ≠ ['-', '-'] := by
    intro hh
    injection hh with h1 h2
    exact hc h1
  unfold classify
  rw [if_neg hne]
  split
  · rename_i heq
    injection heq with e1 e2
    exact absurd e1 hc
  · rename_i heq
    injection heq with e1 e2
    exact absurd e1 hc
  · rfl

theorem numericParse_nil (ty : OptparseType) : numericParse ty [] = none := by
  cases ty <;> rfl

theorem convert_numeric_spec (ty : OptparseType) (minB maxB : Option Rat) (s : Str)
    (hty : ty ≠ OptparseType.str) :
    (convert ty minB maxB s = Except.error ParseErr.conversionError ↔
      (s = [] ∨ ¬ ∃ q, numericParse ty s = some (q, []))) ∧
    (∀ q, numericParse ty s = some (q, []) →
      (rangeOk minB maxB q = true → convert ty minB maxB s = Except.ok (Value.num q)) ∧
      (rangeOk minB maxB q = false →
        convert ty minB maxB s = Except.error ParseErr.rangeError)) := by
  unfold convert
  rw [if_neg hty]
  cases hp : numericParse ty s with
  | none =>
    refine ⟨⟨fun _ => Or.inr ?_, fun _ => rfl⟩, fun q hq => ?_⟩
    · rintro ⟨q, hq⟩
      cases hq
    · cases hq
  | some p =>
    obtain ⟨q0, rest⟩ := p
    cases rest with
    | nil =>
      constructor
      · constructor
        · intro hcv
          by_cases hr : rangeOk minB maxB q0 = true
          · simp [hr] at hcv
          · simp [hr] at hcv
        · intro hor
          rcases hor with hnil | hnex
          · subst hnil
            rw [numericParse_nil] at hp
            cases hp
          · exact absurd ⟨q0, rfl⟩ hnex
      · intro q hq
        injection hq with hq2
        injection hq2 with hqa hqb
        subst hqa
        constructor
        · intro hr
          simp [hr]
        · intro hr
          simp [hr]
    | cons x xs =>
      refine ⟨⟨fun _ => Or.inr ?_, fun _ => rfl⟩, fun q hq => ?_⟩
      · rintro ⟨q, hq⟩
        injection hq with hq2
        injection hq2 with hqa hqb
        cases hqb
      · injection hq with hq2
        injection hq2 with hqa hqb
        cases hqb

theorem processCluster_zero_arity (table : OptTable) (ch : Char) (tl : Str)
    (nx : Option Str) (i : Nat) (o : optparse_opt)
    (hl : lookupShort table ch = some (i, o)) (h0 : o.argc = 0) :
    processCluster table (ch :: tl) nx =
      (dispatchMatch i o none :: (processCluster table tl nx).1,
        (processCluster table tl nx).2) := by
  simp [processCluster, hl, h0]

theorem processCluster_arg_from_token (table : OptTable) (ch : Char) (tl : Str)
    (nx : Option Str) (i : Nat) (o : optparse_opt)
    (hl : lookupShort table ch = some (i, o)) (h0 : ¬ o.argc = 0) (htl : tl ≠ []) :
    processCluster table (ch :: tl) nx = ([dispatchMatch i o (some tl)], false) := by
  cases tl with
  | nil => exact absurd rfl htl
  | cons x xs => simp [processCluster, hl, h0]

theorem processCluster_arg_from_next (table : OptTable) (ch : Char) (v : Str)
    (i : Nat) (o : optparse_opt)
    (hl : lookupShort table ch = some (i, o)) (h0 : ¬ o.argc = 0) :
    processCluster table [ch] (some v) = ([dispatchMatch i o (some v)], true) := by
  simp [processCluster, hl, h0]

/-- C1: for every argument vector, after `optparse_parse` returns, `argv[0]`
is unchanged (the program-name slot is never moved), and the entries
`argv[1..adjusted_argc)` are exactly the tokens the engine disposed of as
positional operands, in the same relative order in which they appeared in
the original vector (in particular they form a subsequence of it). -/
theorem C1_positional_compaction (table : OptTable) (prog : Str) (args : List Str) :
    (optparse_parse table false (prog :: args)).argv.head? = some prog ∧
    (optparse_parse table false (prog :: args)).argv =
      prog :: ((optparse_parse table false (prog :: args)).trace.filter
        (fun p => decide (p.2 = Mark.positional))).map Prod.fst ∧
    (optparse_parse table false (prog :: args)).trace.map Prod.fst = args ∧
    (optparse_parse table false (prog :: args)).argc =
      (optparse_parse table false (prog :: args)).argv.length ∧
    ((optparse_parse table false (prog :: args)).argv.drop 1).Sublist args := by
  have h := parseLoop_inv table args false false
  have hd : optparse_parse table false (prog :: args) =
      ⟨prog :: (parseLoop table false false false args).ops,
        (parseLoop table false false false args).ops.length + 1,
        if hasError (parseLoop table false false false args).outcomes then 1 else 0,
        (parseLoop table false false false args).outcomes,
        (parseLoop table false false false args).trace⟩ := rfl
  rw [hd]
  refine ⟨rfl, ?_, h.1, by simp, ?_⟩
  · simp only
    rw [h.2]
  · show (parseLoop table false false false args).ops.Sublist args
    rw [h.2]
    have hs := (List.filter_sublist
      (p := fun p => decide (p.2 = Mark.positional))
      (parseLoop table false false false args).trace).map Prod.fst
    rw [h.1] at hs
    exact hs

/-- C2: once the exact token `--` is encountered outside an already-open
short-option cluster, every subsequent token is treated as a positional
operand unconditionally, even if it begins with `-` or `--`: the loop
records the sentinel, keeps all following tokens as operands in order,
and dispatches nothing, and the parse call reports success with the
remaining tokens compacted behind the program name. -/
theorem C2_double_dash (table : OptTable) (halt : Bool) (prog : Str) (post : List Str) :
    parseLoop table halt false false (['-', '-'] :: post) =
      ⟨post, [],
        (['-', '-'], Mark.sentinel) :: post.map (fun t => (t, Mark.positional))⟩ ∧
    (optparse_parse table halt (prog :: ['-', '-'] :: post)).argv = prog :: post ∧
    (optparse_parse table halt (prog :: ['-', '-'] :: post)).ret = 0 := by
  have hc : classify ['-', '-'] = TokClass.doubleDash := by decide
  have h1 : parseLoop table halt false false (['-', '-'] :: post) =
      ⟨post, [],
        (['-', '-'], Mark.sentinel) :: post.map (fun t => (t, Mark.positional))⟩ := by
    rw [parseLoop]
    simp [stepOne, hc, parseLoop_afterDD]
  refine ⟨h1, ?_, ?_⟩
  · show prog :: (parseLoop table halt false false (['-', '-'] :: post)).ops = prog :: post
    rw [h1]
  · show (if hasError (parseLoop table halt false false (['-', '-'] :: post)).outcomes
        then 1 else 0) = 0
    rw [h1]
    rfl

/-- C3 counterexample: the exact token `--` falls under the claim's
"every other token" clause (it is neither a long option of length > 2 nor
a short cluster distinct from `--`), yet the Token Classifier does not
classify it as a positional operand — it is the double-dash sentinel. -/
theorem C3_counterexample :
    classify ['-', '-'] = TokClass.doubleDash ∧
    (classify ['-', '-'] = TokClass.positional ↔ False) := by decide

/-- C3 (amended): a token starting with `--` of length > 2 is a long
option whose name is the text between `--` and the first `=` and whose
inline value is the text after it (no inline value without `=`); a token
starting with a single `-` of length > 1 that is not `--` is a short
cluster with one option character per remaining byte; every other token —
except the exact token `--`, which is the double-dash sentinel — including
the bare token `-` and tokens not starting with `-`, is positional. -/
theorem C3_token_classification :
    (∀ name val : Str, '=' ∉ name →
      classify ('-' :: '-' :: (name ++ '=' :: val)) =
        TokClass.longOption name (some val)) ∧
    (∀ name : Str, name ≠ [] → '=' ∉ name →
      classify ('-' :: '-' :: name) = TokClass.longOption name none) ∧
    (∀ (c : Char) (rest : Str), c ≠ '-' →
      classify ('-' :: c :: rest) = TokClass.shortCluster (c :: rest)) ∧
    classify ['-'] = TokClass.positional ∧
    classify [] = TokClass.positional ∧
    (∀ (c : Char) (rest : Str), c ≠ '-' → classify (c :: rest) = TokClass.positional) ∧
    classify ['-', '-'] = TokClass.doubleDash :=
  ⟨classify_long_inline, classify_long_plain, classify_cluster,
    by decide, by decide, classify_nondash, by decide⟩

/-- C3 witness: the classification rules evaluated at the concrete
tokens `--name=v` and `-xyz`. -/
theorem C3_witness :
    classify ('-' :: '-' :: ("name".toList ++ '=' :: "v".toList)) =
      TokClass.longOption "name".toList (some "v".toList) ∧
    classify ('-' :: 'x' :: "yz".toList) = TokClass.shortCluster ('x' :: "yz".toList) :=
  ⟨C3_token_classification.1 "name".toList "v".toList (by decide),
    C3_token_classification.2.2.1 'x' "yz".toList (by decide)⟩

/-- C4: within a short-option cluster, characters are resolved against
the table in sequence: a zero-arity match continues with the next
character of the same token, a non-zero-arity match consumes the rest of
the current token as its option-argument, or, if nothing remains in the
token, the next raw token; in particular, for a cluster `-abc` with `a`,
`b` zero-arity and `c` one-arity and no attached text, the next raw token
is consumed as `c`'s argument. -/
theorem C4_short_cluster (table : OptTable) (a b c : Char) (ia ib ic : Nat)
    (oa ob oc : optparse_opt) (v : Str) (rest : List Str)
    (ha : lookupShort table a = some (ia, oa)) (h0a : oa.argc = 0)
    (hb : lookupShort table b = some (ib, ob)) (h0b : ob.argc = 0)
    (hcc : lookupShort table c = some (ic, oc)) (h1c : oc.argc = 1)
    (hdash : a ≠ '-') :
    (∀ (ch : Char) (tl : Str) (nx : Option Str) (i : Nat) (o : optparse_opt),
      lookupShort table ch = some (i, o) → o.argc = 0 →
      processCluster table (ch :: tl) nx =
        (dispatchMatch i o none :: (processCluster table tl nx).1,
          (processCluster table tl nx).2)) ∧
    (∀ (ch : Char) (tl : Str) (nx : Option Str) (i : Nat) (o : optparse_opt),
      lookupShort table ch = some (i, o) → ¬ o.argc = 0 → tl ≠ [] →
      processCluster table (ch :: tl) nx = ([dispatchMatch i o (some tl)], false)) ∧
    (∀ (ch : Char) (w : Str) (i : Nat) (o : optparse_opt),
      lookupShort table ch = some (i, o) → ¬ o.argc = 0 →
      processCluster table [ch] (some w) = ([dispatchMatch i o (some w)], true)) ∧
    processCluster table [a, b, c] (some v) =
      ([dispatchMatch ia oa none, dispatchMatch ib ob none,
        dispatchMatch ic oc (some v)], true) ∧
    parseLoop table false false false (('-' :: a :: b :: [c]) :: v :: rest) =
      ⟨(parseLoop table false false false rest).ops,
        [dispatchMatch ia oa none, dispatchMatch ib ob none,
          dispatchMatch ic oc (some v)] ++ (parseLoop table false false false rest).outcomes,
        ('-' :: a :: b :: [c], Mark.optionTok) :: (v, Mark.optionArg)
          :: (parseLoop table false false false rest).trace⟩ := by
  have h1c' : ¬ oc.argc = 0 := by
    rw [h1c]
    decide
  have hcl : processCluster table [a, b, c] (some v) =
      ([dispatchMatch ia oa none, dispatchMatch ib ob none,
        dispatchMatch ic oc (some v)], true) := by
    rw [processCluster_zero_arity table a [b, c] (some v) ia oa ha h0a,
      processCluster_zero_arity table b [c] (some v) ib ob hb h0b,
      processCluster_arg_from_next table c v ic oc hcc h1c']
  have hclassify : classify ('-' :: a :: b :: [c]) = TokClass.shortCluster (a :: b :: [c]) :=
    classify_cluster a (b :: [c]) hdash
  have hstep : stepOne table false false ('-' :: a :: b :: [c]) (some v) =
      ⟨false, true, false, false, Mark.optionTok,
        [dispatchMatch ia oa none, dispatchMatch ib ob none,
          dispatchMatch ic oc (some v)]⟩ := by
    simp [stepOne, hclassify, hcl]
  refine ⟨processCluster_zero_arity table, processCluster_arg_from_token table,
    processCluster_arg_from_next table, hcl, ?_⟩
  rw [parseLoop]
  simp only [List.head?_cons, hstep]
  rw [parseLoop]
  simp

/-- C4 witness: the cluster behavior evaluated at the concrete table
`[ex_a, ex_b, ex_c]` on the token `-abc` followed by `VAL`. -/
theorem C4_witness :
    processCluster ex_table ['a', 'b', 'c'] (some "VAL".toList) =
      ([dispatchMatch 0 ex_a none, dispatchMatch 1 ex_b none,
        dispatchMatch 2 ex_c (some "VAL".toList)], true) ∧
    parseLoop ex_table false false false
        (('-' :: 'a' :: 'b' :: ['c']) :: "VAL".toList :: ["pos".toList]) =
      ⟨(parseLoop ex_table false false false ["pos".toList]).ops,
        [dispatchMatch 0 ex_a none, dispatchMatch 1 ex_b none,
          dispatchMatch 2 ex_c (some "VAL".toList)]
          ++ (parseLoop ex_table false false false ["pos".toList]).outcomes,
        ('-' :: 'a' :: 'b' :: ['c'], Mark.optionTok) :: ("VAL".toList, Mark.optionArg)
          :: (parseLoop ex_table false false false ["pos".toList]).trace⟩ :=
  ⟨(C4_short_cluster ex_table 'a' 'b' 'c' 0 1 2 ex_a ex_b ex_c "VAL".toList ["pos".toList]
      (by decide) (by decide) (by decide) (by decide) (by decide) (by decide)
      (by decide)).2.2.2.1,
    (C4_short_cluster ex_table 'a' 'b' 'c' 0 1 2 ex_a ex_b ex_c "VAL".toList ["pos".toList]
      (by decide) (by decide) (by decide) (by decide) (by decide) (by decide)
      (by decide)).2.2.2.2⟩

/-- C5: for every option-argument text and every numeric conversion
type, conversion fails with ConversionError iff the text is empty or not
fully consumed by the standard numeric parse; when the numeric parse
succeeds, the value is range-checked against `min`/`max` by exact
comparison, failing with RangeError outside the bounds; in particular
`"42"` at 32-bit signed type with bounds [0,100] yields 42, `"abc"` a
ConversionError, and `"200"` a RangeError. -/
theorem C5_type_conversion (ty : OptparseType) (minB maxB : Option Rat) (s : Str)
    (hty : ty ≠ OptparseType.str) :
    (convert ty minB maxB s = Except.error ParseErr.conversionError ↔
      (s = [] ∨ ¬ ∃ q, numericParse ty s = some (q, []))) ∧
    (∀ q, numericParse ty s = some (q, []) →
      (rangeOk minB maxB q = true → convert ty minB maxB s = Except.ok (Value.num q)) ∧
      (rangeOk minB maxB q = false →
        convert ty minB maxB s = Except.error ParseErr.rangeError)) ∧
    convert OptparseType.int (some 0) (some 100) "42".toList =
      Except.ok (Value.num 42) ∧
    convert OptparseType.int (some 0) (some 100) "abc".toList =
      Except.error ParseErr.conversionError ∧
    convert OptparseType.int (some 0) (some 100) "200".toList =
      Except.error ParseErr.rangeError :=
  ⟨(convert_numeric_spec ty minB maxB s hty).1,
    (convert_numeric_spec ty minB maxB s hty).2, rfl, rfl, rfl⟩

/-- C5 witness: the conversion-failure characterization evaluated at
the concrete text `abc` and type `int`. -/
theorem C5_witness :
    (convert OptparseType.int (some 0) (some 100) "abc".toList =
        Except.error ParseErr.conversionError ↔
      ("abc".toList = [] ∨
        ¬ ∃ q, numericParse OptparseType.int "abc".toList = some (q, []))) :=
  (C5_type_conversion OptparseType.int (some 0) (some 100) "abc".toList
    (by decide)).1

/-- C6: an option occurrence whose argument acquisition or validation
failed produces an error outcome and never an action event (the two are
exclusive); with HALT-ON-ERROR disabled (the header's setting), parsing
continues past the offending token so that every token of the vector is
processed, and the call reports failure (returns 1) iff any error
occurred, success (returns 0) iff none did. -/
theorem C6_error_propagation (table : OptTable) (prog : Str) (args : List Str) :
    ((optparse_parse table OPTPARSE_HALT_ON_ERROR (prog :: args)).ret = 0 ↔
      errorsOf (optparse_parse table OPTPARSE_HALT_ON_ERROR (prog :: args)).outcomes = []) ∧
    ((optparse_parse table OPTPARSE_HALT_ON_ERROR (prog :: args)).ret = 1 ↔
      errorsOf (optparse_parse table OPTPARSE_HALT_ON_ERROR (prog :: args)).outcomes ≠ []) ∧
    (optparse_parse table OPTPARSE_HALT_ON_ERROR (prog :: args)).trace.map Prod.fst
      = args ∧
    (∀ (i : Nat) (o : optparse_opt) (acq : Option Str) (e : ParseErr) (ev : Event),
      dispatchMatch i o acq = Except.error e → dispatchMatch i o acq ≠ Except.ok ev) := by
  have h := parseLoop_inv table args false false
  have hd : optparse_parse table OPTPARSE_HALT_ON_ERROR (prog :: args) =
      ⟨prog :: (parseLoop table false false false args).ops,
        (parseLoop table false false false args).ops.length + 1,
        if hasError (parseLoop table false false false args).outcomes then 1 else 0,
        (parseLoop table false false false args).outcomes,
        (parseLoop table false false false args).trace⟩ := rfl
  rw [hd]
  cases hh : hasError (parseLoop table false false false args).outcomes with
  | false =>
    have hnil := (hasError_false_iff _).1 hh
    refine ⟨by simp [hh, hnil], by simp [hh, hnil], h.1, ?_⟩
    intro i o acq e ev he hok
    rw [he] at hok
    cases hok
  | true =>
    have hne : errorsOf (parseLoop table false false false args).outcomes ≠ [] := by
      intro h0
      rw [(hasError_false_iff _).2 h0] at hh
      cases hh
    refine ⟨by simp [hh, hne], by simp [hh, hne], h.1, ?_⟩
    intro i o acq e ev he hok
    rw [he] at hok
    cases hok

/-- C6 witness: error reporting evaluated on the concrete vector
`prog -z pos` against `ex_table`, and exclusivity of error and action on
the failing conversion of `abc`. -/
theorem C6_witness :
    ((optparse_parse ex_table OPTPARSE_HALT_ON_ERROR
        ("prog".toList :: ["-z".toList, "pos".toList])).ret = 1 ↔
      errorsOf (optparse_parse ex_table OPTPARSE_HALT_ON_ERROR
        ("prog".toList :: ["-z".toList, "pos".toList])).outcomes ≠ []) ∧
    dispatchMatch 0 ex_int_opt (some "abc".toList) ≠
      Except.ok (Event.acted 0 OptparseAction.store []) :=
  ⟨(C6_error_propagation ex_table "prog".toList ["-z".toList, "pos".toList]).2.1,
    (C6_error_propagation ex_table "prog".toList ["-z".toList, "pos".toList]).2.2.2
      0 ex_int_opt (some "abc".toList) ParseErr.conversionError
      (Event.acted 0 OptparseAction.store []) rfl⟩

/-- C7: in list mode the acquired text is split on any character of the
delimiter set with no escaping, empty items between consecutive
delimiters are preserved as empty strings, each split item undergoes the
same type conversion, and the item count is checked against the list
length bounds; with delimiter `,` and bounds (1,3), `a,b,c,d` fails with
ListLengthError while `a,b` yields two converted items and advances
`destination_length` to 2 under the APPEND configuration. -/
theorem C7_list_mode (delims : Str) (d d1 d2 : Char) (a b : Str)
    (hd : d ∈ delims) (hd1 : d1 ∈ delims) (hd2 : d2 ∈ delims) :
    splitOnDelims delims (a ++ d :: b) =
      splitOnDelims delims a ++ splitOnDelims delims b ∧
    splitOnDelims delims (a ++ d1 :: d2 :: b) =
      splitOnDelims delims a ++ [] :: splitOnDelims delims b ∧
    (∀ (o : optparse_opt) (text : Str), o.list_delim = some delims →
      o.list_len_min ≤ (splitOnDelims delims text).length →
      (∀ M, o.list_len_max = some M → (splitOnDelims delims text).length ≤ M) →
      processArg o text = convertItems o.type o.min o.max (splitOnDelims delims text)) ∧
    processArg ex_list_opt "a,b,c,d".toList = Except.error ParseErr.listLengthError ∧
    processArg ex_list_opt "a,b".toList =
      Except.ok [Value.str "a".toList, Value.str "b".toList] ∧
    (optparse_parse [ex_list_opt] false
        ("prog".toList :: "--list".toList :: "a,b".toList :: [])).outcomes =
      [Except.ok (Event.acted 0 OptparseAction.append
        [Value.str "a".toList, Value.str "b".toList])] ∧
    destLenAfter (eventsOf (optparse_parse [ex_list_opt] false
        ("prog".toList :: "--list".toList :: "a,b".toList :: [])).outcomes) 0 = 2 := by
  refine ⟨splitOnDelims_append delims d hd a b, ?_, ?_, rfl, rfl, rfl, rfl⟩
  · rw [splitOnDelims_append delims d1 hd1 a (d2 :: b)]
    have : splitOnDelims delims (d2 :: b) = [] :: splitOnDelims delims b := by
      simp [splitOnDelims, hd2]
    rw [this]
  · intro o text hld hmin hmax
    unfold processArg
    rw [hld]
    simp only
    rw [if_neg (Nat.not_lt.mpr hmin)]
    cases hM : o.list_len_max with
    | none => rfl
    | some M =>
      show (if M < (splitOnDelims delims text).length
          then Except.error ParseErr.listLengthError
          else convertItems o.type o.min o.max (splitOnDelims delims text)) =
        convertItems o.type o.min o.max (splitOnDelims delims text)
      rw [if_neg (Nat.not_lt.mpr (hmax M hM))]

/-- C7 witness: the splitter equation evaluated at delimiter `,` on
`a,b`, and the list-length failure on `a,b,c,d`. -/
theorem C7_witness :
    splitOnDelims [','] ("a".toList ++ ',' :: "b".toList) =
      splitOnDelims [','] "a".toList ++ splitOnDelims [','] "b".toList ∧
    processArg ex_list_opt "a,b,c,d".toList = Except.error ParseErr.listLengthError :=
  ⟨(C7_list_mode [','] ',' ',' ',' "a".toList "b".toList
      (by decide) (by decide) (by decide)).1,
    (C7_list_mode [','] ',' ',' ',' "a".toList "b".toList
      (by decide) (by decide) (by decide)).2.2.2.1⟩

/-- C8: for every table with unique short and long names, `init`
followed by `parse` on a vector containing no option-like tokens leaves
the vector unchanged (program name followed by the same tokens), the
adjusted count equals the original count, and the call reports
success. -/
theorem C8_no_option_like_tokens (table : OptTable) (st : Option OptTable)
    (prog : Str) (args : List Str)
    (_hu : uniqueNames table) (hp : ∀ t ∈ args, classify t = TokClass.positional) :
    parseWithState (optparse_init table st) false (prog :: args) =
      some ⟨prog :: args, args.length + 1, 0, [],
        args.map (fun t => (t, Mark.positional))⟩ := by
  have h := parseLoop_all_positional table false args hp
  have hres : optparse_parse table false (prog :: args) =
      ⟨prog :: args, args.length + 1, 0, [],
        args.map (fun t => (t, Mark.positional))⟩ := by
    have hd : optparse_parse table false (prog :: args) =
        ⟨prog :: (parseLoop table false false false args).ops,
          (parseLoop table false false false args).ops.length + 1,
          if hasError (parseLoop table false false false args).outcomes then 1 else 0,
          (parseLoop table false false false args).outcomes,
          (parseLoop table false false false args).trace⟩ := rfl
    rw [hd, h]
    rfl
  show some (optparse_parse table false (prog :: args)) = _
  rw [hres]

/-- C8 witness: the frame property evaluated at the concrete table
`ex_table` and the operand-only vector `prog x -`. -/
theorem C8_witness :
    uniqueNames ex_table ∧
    parseWithState (optparse_init ex_table none) false
        ("prog".toList :: ["x".toList, "-".toList]) =
      some ⟨"prog".toList :: ["x".toList, "-".toList], 3, 0, [],
        [("x".toList, Mark.positional), ("-".toList, Mark.positional)]⟩ :=
  ⟨by decide,
    C8_no_option_like_tokens ex_table none "prog".toList ["x".toList, "-".toList]
      (by decide) (by decide)⟩

/-- C9: registering the same option table twice via `optparse_init` is
idempotent — for every argument vector, `optparse_parse` after the second
`init` behaves exactly as after the first. -/
theorem C9_init_idempotent (table : OptTable) (st : Option OptTable) (halt : Bool)
    (argv : List Str) :
    parseWithState (optparse_init table (optparse_init table st)) halt argv =
      parseWithState (optparse_init table st) halt argv := rfl

/-- C10: the public interface provides the raw-call mode
`OPTPARSE_CALL_RAW`, in which the callback receives the original,
unconverted option-argument text even when a conversion type is
configured, alongside the converted-argument `OPTPARSE_CALL` mode. -/
theorem C10_call_raw_mode (ty : OptparseType) (minB maxB : Option Rat) (raw : Str) :
    callbackArgument optparse_function_call.call_raw ty minB maxB raw =
      some (Except.ok (Value.str raw)) ∧
    callbackArgument optparse_function_call.call ty minB maxB raw =
      some (convert ty minB maxB raw) :=
  ⟨rfl, rfl⟩
